import Mathlib

/-!
# Verification of the claudelint repository-discovery and rule-orchestration core

This development shallowly embeds the core of the `claudelint` linter
(`context.py`, `config.py`, `rule.py`, `linter.py`) and proves or refutes the
frozen specification claims about it.

Modelling conventions:
* A filesystem path is a list of components; the filesystem root is `[]`.
  `normalize` models POSIX resolution of `.` and `..` on a symlink-free tree
  (=`pathlib.Path.resolve`).
* Parsed JSON documents are modelled by the inductive `JVal`; a file on disk is
  either a directory or a file whose content is a parsed JSON value or
  `invalid` (unreadable or not valid JSON).
* Python exceptions escaping a function are modelled with `Except PyErr`;
  caught exceptions are modelled by the corresponding fallback value.
* `logger.warning` / `logger.info` calls are modelled as structural `LogEvent`
  values carrying the arguments of the original format-string call.
-/

namespace Claudelint

/-- A filesystem path, as a list of components from the filesystem root. -/
abbrev Path := List String

/-- One step of POSIX path normalization: `.` is dropped, `..` pops the last
component (at the root it stays at the root), anything else is appended. -/
def normComp (acc : List String) (c : String) : List String :=
  if c = "." then acc
  else if c = ".." then acc.dropLast
  else acc ++ [c]

/-- POSIX path normalization (resolution of `.` and `..` with no symlinks),
modelling `pathlib.Path.resolve` on the trees this model builds. -/
def normalize (p : Path) : Path :=
  p.foldl normComp []

/-- A parsed JSON value, as produced by `json.load`. -/
inductive JVal where
  | jnull
  | jbool (b : Bool)
  | jnum (n : Int)
  | jstr (s : String)
  | jarr (xs : List JVal)
  | jobj (fields : List (String × JVal))
  deriving Repr

/-- Python truthiness of a JSON value (`bool(v)`). -/
def truthy : JVal → Bool
  | .jnull => false
  | .jbool b => b
  | .jnum n => n != 0
  | .jstr s => s ≠ ""
  | .jarr xs => !xs.isEmpty
  | .jobj fields => !fields.isEmpty

/-- Python `v == s` for a JSON value against a string literal: only a string
compares equal to a string. -/
def pyEqStr (v : JVal) (s : String) : Bool :=
  match v with
  | .jstr t => t = s
  | _ => false

/-- `d.get(k)` on the field list of a JSON object: the first binding of `k`. -/
def getField (fields : List (String × JVal)) (k : String) : Option JVal :=
  match fields with
  | [] => none
  | (k', v) :: rest => if k' = k then some v else getField rest k

/-- `d[k] = v` on the field list of a JSON object: replace the first binding
of `k`, or append a new one. -/
def setField (fields : List (String × JVal)) (k : String) (v : JVal) :
    List (String × JVal) :=
  match fields with
  | [] => [(k, v)]
  | (k', v') :: rest =>
      if k' = k then (k', v) :: rest else (k', v') :: setField rest k v

/-- A Python exception escaping a modelled function, by exception-class name. -/
abbrev PyErr := String

/-- The content of a regular file, as seen through `json.load`. -/
inductive FileData where
  | valid (v : JVal)
  | invalid
  deriving Repr

/-- A filesystem node: a directory or a regular file. -/
inductive FsNode where
  | dir
  | file (data : FileData)
  deriving Repr

/-- A symlink-free filesystem: a finite list of (normalized path, node)
bindings. -/
abbrev FS := List (Path × FsNode)

/-- Look up the node stored at the normalization of `p`. -/
def fsLookup (fs : FS) (p : Path) : Option FsNode :=
  match fs with
  | [] => none
  | (q, n) :: rest => if q = normalize p then some n else fsLookup rest p

/-- `Path.exists()`. -/
def fsExists (fs : FS) (p : Path) : Bool :=
  (fsLookup fs p).isSome

/-- `Path.is_dir()`. -/
def fsIsDir (fs : FS) (p : Path) : Bool :=
  match fsLookup fs p with
  | some .dir => true
  | _ => false

/-- `json.load(open(p))`, with `JSONDecodeError`/`IOError` mapped to `none`
(a directory at `p`, an unreadable file, or malformed JSON). -/
def readJson (fs : FS) (p : Path) : Option JVal :=
  match fsLookup fs p with
  | some (.file (.valid v)) => some v
  | _ => none

/-- `Path.iterdir()` entry names: the names of the immediate children of `p`
recorded in the filesystem, in filesystem order. -/
def children (fs : FS) (p : Path) : List String :=
  let np := normalize p
  fs.filterMap fun e =>
    if e.1.length = np.length + 1 ∧ np.isPrefixOf e.1 then e.1.getLast? else none

/-- `RepositoryType` from `context.py`. -/
inductive RepositoryType where
  | SINGLE_PLUGIN
  | MARKETPLACE
  | UNKNOWN
  deriving Repr, DecidableEq

/-- The conventional plugin-manifest directory name `.claude-plugin`. -/
def strd : String := ".claude-plugin"

/-- `RepositoryContext._detect_type`: classification of the repository. -/
def detect_type (fs : FS) (root : Path) : RepositoryType :=
  if fsExists fs (root ++ [strd, "marketplace.json"]) then .MARKETPLACE
  else if fsExists fs (root ++ [strd]) then .SINGLE_PLUGIN
  else if fsExists fs (root ++ ["plugins"]) then .MARKETPLACE
  else .UNKNOWN

/-- `RepositoryContext.has_marketplace`. -/
def has_marketplace (fs : FS) (root : Path) : Bool :=
  fsExists fs (root ++ [strd, "marketplace.json"])

/-- `RepositoryContext._load_marketplace`: parse `marketplace.json`, with read
and parse errors degraded to `None`. -/
def load_marketplace (fs : FS) (root : Path) : Option JVal :=
  if fsExists fs (root ++ [strd, "marketplace.json"]) then
    readJson fs (root ++ [strd, "marketplace.json"])
  else none

/-- Split a character list at `/` separators. -/
def splitSlash : List Char → List Char → List (List Char)
  | [], acc => [acc.reverse]
  | c :: rest, acc =>
      if c = '/' then acc.reverse :: splitSlash rest []
      else splitSlash rest (c :: acc)

/-- Split a Python path string into `pathlib` components: `/`-separated,
empty components dropped. -/
def pathComponents (s : String) : List String :=
  ((splitSlash s.data []).filter (fun cs => ¬ cs.isEmpty)).map (fun cs => ⟨cs⟩)

/-- Does a Python path string denote an absolute path? -/
def isAbsolute (s : String) : Bool :=
  match s.data with
  | c :: _ => c = '/'
  | [] => false

/-- `name.startswith(".")`: is the entry hidden? -/
def startsWithDot (s : String) : Bool :=
  match s.data with
  | c :: _ => c = '.'
  | [] => false

/-- `(root / s).resolve()` for a path string `s` against an already-resolved
root: an absolute string replaces the root (as `pathlib`'s `/` does), a
relative one is appended, and the result is normalized. -/
def resolveStr (root : Path) (s : String) : Path :=
  if isAbsolute s then normalize (pathComponents s)
  else normalize (root ++ pathComponents s)

/-- One `logger` call made during plugin-source resolution, carrying the
arguments of the corresponding format-string call in `context.py`. -/
inductive LogEvent where
  | warnEscapes (pluginName : JVal) (source : String)
  | infoNotFound (pluginName : JVal) (source : String)
  | infoNotDir (pluginName : JVal) (source : String)
  | infoRemote (pluginName : JVal) (sourceType : JVal) (sourceInfo : JVal)
  | infoUnknownFormat (pluginName : JVal)
  deriving Repr

/-- `logger.warning` or `logger.info`? -/
def LogEvent.isWarning : LogEvent → Bool
  | .warnEscapes _ _ => true
  | _ => false

/-- The plugin name mentioned by a log event (every event mentions one). -/
def LogEvent.mentionedName : LogEvent → JVal
  | .warnEscapes n _ => n
  | .infoNotFound n _ => n
  | .infoNotDir n _ => n
  | .infoRemote n _ _ => n
  | .infoUnknownFormat n => n

/-- `RepositoryContext._resolve_plugin_source`: resolve a marketplace entry's
`source` to a local path, returning the resolved path (or `none`) together
with the log events emitted. -/
def resolve_plugin_source (fs : FS) (root : Path) (source : JVal)
    (entry : List (String × JVal)) : Option Path × List LogEvent :=
  let plugin_name := (getField entry "name").getD (.jstr "unknown")
  match source with
  | .jstr s =>
      let candidate := resolveStr root s
      if ¬ root.isPrefixOf candidate then
        (none, [.warnEscapes plugin_name s])
      else if ¬ fsExists fs candidate then
        (none, [.infoNotFound plugin_name s])
      else if ¬ fsIsDir fs candidate then
        (none, [.infoNotDir plugin_name s])
      else
        (some candidate, [])
  | .jobj sf =>
      let source_type := (getField sf "source").getD (.jstr "unknown")
      let source_info :=
        match getField sf "repo" with
        | some rv => if truthy rv then rv else (getField sf "url").getD (.jstr "unknown")
        | none => (getField sf "url").getD (.jstr "unknown")
      (none, [.infoRemote plugin_name source_type source_info])
  | _ => (none, [.infoUnknownFormat plugin_name])

/-- `RepositoryContext._is_valid_plugin_dir`. -/
def is_valid_plugin_dir (fs : FS) (path : Path)
    (marketplace_entry : Option (List (String × JVal))) : Bool :=
  if fsExists fs (path ++ [strd, "plugin.json"]) ∨ fsExists fs (path ++ ["commands"]) ∨
      fsExists fs (path ++ ["agents"]) ∨ fsExists fs (path ++ ["skills"]) ∨
      fsExists fs (path ++ ["hooks"]) then
    true
  else
    match marketplace_entry with
    | some entry =>
        match getField entry "strict" with
        | some (.jbool false) => true
        | _ => false
    | none => false

/-- The mutable discovery state threaded through `_discover_plugins`:
the `plugins` list, the `discovered_paths` set (as a list), the
`plugin_metadata` mapping, and the emitted log events. -/
structure DiscState where
  plugins : List Path
  discovered : List Path
  metadata : List (Path × List (String × JVal))
  logs : List LogEvent
  deriving Repr

/-- The empty discovery state at the start of `_discover_plugins`. -/
def DiscState.init : DiscState := ⟨[], [], [], []⟩

/-- The body of the `plugins/`-directory loop in
`_discover_from_plugins_dir`, for one directory entry name. -/
def plugins_dir_step (fs : FS) (plugins_dir : Path) (st : DiscState)
    (name : String) : DiscState :=
  let item := plugins_dir ++ [name]
  if ¬ fsIsDir fs item ∨ startsWithDot name then st
  else if ¬ (fsExists fs (item ++ [strd]) ∨ fsExists fs (item ++ ["commands"])) then st
  else
    let resolved := normalize item
    if resolved ∈ st.discovered then st
    else { st with plugins := st.plugins ++ [item],
                   discovered := st.discovered ++ [resolved] }

/-- `RepositoryContext._discover_from_plugins_dir`: the container scan of the
conventional `plugins/` directory. `iterdir` on a non-directory raises. -/
def discover_from_plugins_dir (fs : FS) (root : Path) (st : DiscState) :
    Except PyErr DiscState :=
  let plugins_dir := root ++ ["plugins"]
  if ¬ fsExists fs plugins_dir then .ok st
  else if ¬ fsIsDir fs plugins_dir then .error "NotADirectoryError"
  else .ok ((children fs plugins_dir).foldl (plugins_dir_step fs plugins_dir) st)

/-- The body of the marketplace-entry loop in `_discover_from_marketplace`,
for one element of the registry's `plugins` array. A non-object element
raises `AttributeError` at `plugin_entry.get`. -/
def marketplace_entry_step (fs : FS) (root : Path) (st : DiscState)
    (plugin_entry : JVal) : Except PyErr DiscState :=
  match plugin_entry with
  | .jobj entry =>
      let source := (getField entry "source").getD .jnull
      if ¬ truthy source then .ok st
      else
        let res := resolve_plugin_source fs root source entry
        let st1 := { st with logs := st.logs ++ res.2 }
        match res.1 with
        | none => .ok st1
        | some plugin_path =>
            let resolved := normalize plugin_path
            if resolved ∈ st1.discovered then .ok st1
            else if ¬ is_valid_plugin_dir fs plugin_path (some entry) then .ok st1
            else
              let st2 := { st1 with plugins := st1.plugins ++ [plugin_path],
                                    discovered := st1.discovered ++ [resolved] }
              let is_strict := (getField entry "strict").getD (.jbool true)
              let has_plugin_json := fsExists fs (plugin_path ++ [strd, "plugin.json"])
              if ¬ truthy is_strict ∧ ¬ has_plugin_json then
                .ok { st2 with metadata := st2.metadata ++ [(resolved, entry)] }
              else .ok st2
  | _ => .error "AttributeError"

/-- Python `"plugins" in v` for the parsed registry document, and the
subsequent `v["plugins"]` subscript / iteration, modelled per value shape. -/
def marketplace_plugins_list (d : JVal) : Except PyErr (List JVal) :=
  match d with
  | .jobj fields =>
      match getField fields "plugins" with
      | none => .ok []
      | some (.jarr entries) => .ok entries
      | some (.jobj pf) =>
          -- iterating a dict yields its keys (strings): the first key raises
          -- AttributeError at plugin_entry.get
          if pf.isEmpty then .ok [] else .error "AttributeError"
      | some (.jstr s) =>
          -- iterating a string yields characters (strings)
          if s.isEmpty then .ok [] else .error "AttributeError"
      | some _ => .error "TypeError"
  | .jarr xs =>
      -- "plugins" in list is membership; a hit subscripts a list with a string
      if xs.any (fun x => pyEqStr x "plugins") then .error "TypeError" else .ok []
  | .jstr s =>
      -- "plugins" in str is a substring test; a hit subscripts a str
      if List.IsInfix ("plugins".toList) s.toList then .error "TypeError" else .ok []
  | _ => .error "TypeError"

/-- `RepositoryContext._discover_from_marketplace`: the registry scan over
`marketplace.json`'s plugin entries. -/
def discover_from_marketplace (fs : FS) (root : Path)
    (marketplace_data : Option JVal) (st : DiscState) : Except PyErr DiscState :=
  match marketplace_data with
  | none => .ok st
  | some d =>
      if ¬ truthy d then .ok st
      else do
        let entries ← marketplace_plugins_list d
        entries.foldlM (marketplace_entry_step fs root) st

/-- `RepositoryContext._discover_plugins`. -/
def discover_plugins (fs : FS) (root : Path) (repo_type : RepositoryType)
    (marketplace_data : Option JVal) : Except PyErr DiscState :=
  match repo_type with
  | .SINGLE_PLUGIN => .ok ⟨[root], [normalize root], [], []⟩
  | .MARKETPLACE => do
      let st ← discover_from_plugins_dir fs root DiscState.init
      discover_from_marketplace fs root marketplace_data st
  | .UNKNOWN => .ok DiscState.init

/-- The fields of a `RepositoryContext` after `__init__`. -/
structure RepositoryContext where
  root_path : Path
  repo_type : RepositoryType
  marketplace_data : Option JVal
  plugin_metadata : List (Path × List (String × JVal))
  plugins : List Path
  deriving Repr

/-- `RepositoryContext.__init__`: resolve the root, detect the type, load the
registry, and discover plugins. Returns the constructed context and the log
events emitted, or the uncaught Python exception. -/
def RepositoryContext.construct (fs : FS) (root_path : Path) :
    Except PyErr (RepositoryContext × List LogEvent) := do
  let root := normalize root_path
  let repo_type := detect_type fs root
  let marketplace_data := if has_marketplace fs root then load_marketplace fs root else none
  let st ← discover_plugins fs root repo_type marketplace_data
  .ok (⟨root, repo_type, marketplace_data, st.metadata, st.plugins⟩, st.logs)

/-- Look up retained marketplace metadata by resolved path. -/
def lookupMeta (m : List (Path × List (String × JVal))) (p : Path) :
    Option (List (String × JVal)) :=
  match m with
  | [] => none
  | (q, e) :: rest => if q = p then some e else lookupMeta rest p

/-- `Path.name`: the final path component. -/
def baseName (p : Path) : String :=
  (p.getLast?).getD ""

/-- `d.get(k)` on an arbitrary Python value: raises `AttributeError` unless
the value is a dict. A missing key yields `None`. -/
def pyGet (d : JVal) (k : String) : Except PyErr JVal :=
  match d with
  | .jobj fields => .ok ((getField fields k).getD .jnull)
  | _ => .error "AttributeError"

/-- `RepositoryContext.get_plugin_name`. -/
def RepositoryContext.get_plugin_name (ctx : RepositoryContext) (fs : FS)
    (plugin_path : Path) : Except PyErr JVal := do
  let resolved := normalize plugin_path
  let plugin_json := plugin_path ++ [strd, "plugin.json"]
  let fromManifest : Option JVal ←
    if fsExists fs plugin_json then
      match readJson fs plugin_json with
      | some data => do
          let name ← pyGet data "name"
          pure (if truthy name then some name else none)
      | none => pure none
    else pure none
  match fromManifest with
  | some name => .ok name
  | none =>
      match lookupMeta ctx.plugin_metadata resolved with
      | some entry => .ok ((getField entry "name").getD (.jstr (baseName plugin_path)))
      | none => .ok (.jstr (baseName plugin_path))

/-- `metadata[key] = value` on an arbitrary Python value: raises `TypeError`
unless the value is a dict. -/
def pySetItem (d : JVal) (k : String) (v : JVal) : Except PyErr JVal :=
  match d with
  | .jobj fields => .ok (.jobj (setField fields k v))
  | _ => .error "TypeError"

/-- The fallback-merge loop of `get_plugin_metadata`: copy every marketplace
entry field except the registry-only `source` and `strict` into the metadata
dict. -/
def mergeMarketplaceFields (metadata : JVal) (entry : List (String × JVal)) :
    Except PyErr JVal :=
  entry.foldlM
    (fun m kv => if kv.1 = "source" ∨ kv.1 = "strict" then .ok m
                 else pySetItem m kv.1 kv.2) metadata

/-- `RepositoryContext.get_plugin_metadata`. -/
def RepositoryContext.get_plugin_metadata (ctx : RepositoryContext) (fs : FS)
    (plugin_path : Path) : Except PyErr (Option JVal) := do
  let resolved := normalize plugin_path
  let plugin_json := plugin_path ++ [strd, "plugin.json"]
  let metadata0 : JVal :=
    if fsExists fs plugin_json then
      match readJson fs plugin_json with
      | some data => data
      | none => .jobj []
    else .jobj []
  let metadata ←
    match lookupMeta ctx.plugin_metadata resolved with
    | some entry => mergeMarketplaceFields metadata0 entry
    | none => pure metadata0
  .ok (if truthy metadata then some metadata else none)

/-- `Severity` from `rule.py`. -/
inductive Severity where
  | ERROR
  | WARNING
  | INFO
  deriving Repr, DecidableEq

/-- The `.value` string of a severity enum member. -/
def Severity.value : Severity → String
  | .ERROR => "error"
  | .WARNING => "warning"
  | .INFO => "info"

/-- The `Severity(x)` enum constructor: succeeds exactly when `x` equals one
of the member value strings, otherwise raises `ValueError`. -/
def Severity.ofJVal : JVal → Option Severity
  | .jstr s =>
      if s = "error" then some .ERROR
      else if s = "warning" then some .WARNING
      else if s = "info" then some .INFO
      else none
  | _ => none

/-- `RuleViolation` from `rule.py`. -/
structure RuleViolation where
  rule_id : String
  severity : Severity
  message : String
  file_path : Option Path := none
  line : Option Nat := none
  deriving Repr, DecidableEq

/-- The configured state a `Rule.__init__` call computes: the raw `enabled`
configuration value and the validated severity. -/
structure RuleState where
  enabled : JVal
  severity : Severity
  deriving Repr

/-- `Rule.__init__`: read `enabled` and `severity` from the rule's
configuration dict; an unrecognized severity value raises `ValueError`. -/
def ruleInit (config : List (String × JVal)) (default_severity : Severity) :
    Except PyErr RuleState :=
  let enabled := (getField config "enabled").getD (.jbool true)
  let severity_str := (getField config "severity").getD (.jstr default_severity.value)
  match Severity.ofJVal severity_str with
  | some s => .ok ⟨enabled, s⟩
  | none => .error "ValueError"

/-- `LinterConfig` from `config.py`. -/
structure LinterConfig where
  rules : List (String × List (String × JVal)) := []
  custom_rules : List String := []
  exclude_patterns : List String := []
  strict : Bool := false

/-- `self.rules.get(rule_id)`: first binding of a rule id in the rules map. -/
def lookupRules (rules : List (String × List (String × JVal))) (rule_id : String) :
    Option (List (String × JVal)) :=
  match rules with
  | [] => none
  | (k, v) :: rest => if k = rule_id then some v else lookupRules rest rule_id

/-- `LinterConfig.get_rule_config`. -/
def LinterConfig.get_rule_config (cfg : LinterConfig) (rule_id : String) :
    List (String × JVal) :=
  (lookupRules cfg.rules rule_id).getD []

/-- `LinterConfig.is_rule_enabled`. -/
def LinterConfig.is_rule_enabled (cfg : LinterConfig) (rule_id : String)
    (context : RepositoryContext) : Bool :=
  let rule_config := cfg.get_rule_config rule_id
  let enabled := (getField rule_config "enabled").getD (.jbool true)
  if pyEqStr enabled "auto" then context.repo_type = .MARKETPLACE
  else truthy enabled

/-- A built-in rule class: its class-level `rule_id`, its coded
`default_severity`, and its `check` implementation (which may raise). -/
structure BuiltinRule where
  rule_id : String
  default_severity : Severity
  check : RepositoryContext → Except PyErr (List RuleViolation)

/-- A rule instance held in `ClaudeLinter.rules`. -/
structure LoadedRule where
  rule_id : String
  state : RuleState
  check : RepositoryContext → Except PyErr (List RuleViolation)

/-- The body of the builtin-rule loading loop in
`ClaudeLinter._load_builtin_rules`, for one builtin rule class. Every builtin
class declares `rule_id` as a `@property`, and the loop reads it on the
*class* (`rule_class.rule_id`), which yields the property descriptor object,
not the id string; `get_rule_config` looks that object up in the string-keyed
rules dict and therefore always returns `{}`, so `Rule.__init__` runs on an
empty configuration. The enabled check that follows uses the *instance*'s
`rule_id`, which is the id string. -/
def load_builtin_step (cfg : LinterConfig) (context : RepositoryContext)
    (acc : List LoadedRule) (b : BuiltinRule) : Except PyErr (List LoadedRule) := do
  let st ← ruleInit [] b.default_severity
  if cfg.is_rule_enabled b.rule_id context then
    .ok (acc ++ [⟨b.rule_id, st, b.check⟩])
  else
    .ok acc

/-- `ClaudeLinter._load_builtin_rules`: instantiate every builtin rule class
(with the always-empty configuration produced by the class-level property
access), then append it to the active list only when enabled. -/
def load_builtin_rules (builtins : List BuiltinRule) (cfg : LinterConfig)
    (context : RepositoryContext) : Except PyErr (List LoadedRule) :=
  builtins.foldlM (load_builtin_step cfg context) []

/-- `ClaudeLinter.run`: run every active rule, catching per-rule exceptions
and logging them to stderr (modelled as a list of `(rule_id, error)` pairs). -/
def ClaudeLinter.run (rules : List LoadedRule) (context : RepositoryContext) :
    List RuleViolation × List (String × PyErr) :=
  rules.foldl
    (fun acc rule =>
      match rule.check context with
      | .ok rule_violations => (acc.1 ++ rule_violations, acc.2)
      | .error e => (acc.1, acc.2 ++ [(rule.rule_id, e)]))
    ([], [])

/-! ## Helper lemmas -/

theorem pyEqStr_eq_true_iff (v : JVal) (s : String) :
    pyEqStr v s = true ↔ v = .jstr s := by
  cases v <;> simp [pyEqStr]

theorem run_foldl_characterization (rules : List LoadedRule)
    (context : RepositoryContext) (acc : List RuleViolation × List (String × PyErr)) :
    rules.foldl
      (fun acc rule =>
        match rule.check context with
        | .ok rule_violations => (acc.1 ++ rule_violations, acc.2)
        | .error e => (acc.1, acc.2 ++ [(rule.rule_id, e)]))
      acc =
    (acc.1 ++ (rules.map fun r =>
        match r.check context with
        | .ok vs => vs
        | .error _ => []).flatten,
     acc.2 ++ rules.filterMap fun r =>
        match r.check context with
        | .ok _ => none
        | .error e => some (r.rule_id, e)) := by
  induction rules generalizing acc with
  | nil => simp
  | cons r rest ih =>
      simp only [List.foldl_cons, List.map_cons, List.flatten, List.filterMap_cons]
      cases h : r.check context with
      | ok vs => simp [h, ih, List.append_assoc]
      | error e => simp [h, ih, List.append_assoc]

/-! ## C5: per-check failure isolation in `ClaudeLinter.run` -/

/-- C5: during `ClaudeLinter.run`, a check whose `check(repository)` raises is
caught and logged to stderr, contributes zero violations, and every other
check's violations are all included in run order; `run` itself returns
normally (its result is totally characterized: the violations are the
concatenation of the successful checks' violation lists in load order, and
the stderr log has exactly one entry per failing check). -/
theorem c5_run_isolation (rules : List LoadedRule) (context : RepositoryContext) :
    ClaudeLinter.run rules context =
      ((rules.map fun r =>
          match r.check context with
          | .ok vs => vs
          | .error _ => []).flatten,
       rules.filterMap fun r =>
          match r.check context with
          | .ok _ => none
          | .error e => some (r.rule_id, e)) := by
  have h := run_foldl_characterization rules context ([], [])
  simpa [ClaudeLinter.run] using h

/-! ## C7: `is_rule_enabled` semantics -/

/-- C7: `is_rule_enabled` returns `repo_type == MARKETPLACE` when the
configured enabled state is the string `"auto"`, `true` when the rule has no
configuration entry at all (and also when the entry lacks an `enabled` key),
and otherwise the Python boolean coercion of the configured value. -/
theorem c7_is_rule_enabled (cfg : LinterConfig) (rule_id : String)
    (context : RepositoryContext) :
    (∀ v, getField (cfg.get_rule_config rule_id) "enabled" = some v →
        (v = .jstr "auto" →
          cfg.is_rule_enabled rule_id context =
            (context.repo_type = .MARKETPLACE)) ∧
        (v ≠ .jstr "auto" →
          cfg.is_rule_enabled rule_id context = truthy v)) ∧
    (lookupRules cfg.rules rule_id = none →
        cfg.is_rule_enabled rule_id context = true) ∧
    (getField (cfg.get_rule_config rule_id) "enabled" = none →
        cfg.is_rule_enabled rule_id context = true) := by
  refine ⟨fun v hv => ⟨fun hauto => ?_, fun hnot => ?_⟩, fun habs => ?_, fun habs => ?_⟩
  · subst hauto
    simp [LinterConfig.is_rule_enabled, hv, pyEqStr]
  · have hne : pyEqStr v "auto" = false := by
      cases hb : pyEqStr v "auto"
      · rfl
      · exact absurd ((pyEqStr_eq_true_iff v "auto").mp hb) hnot
    simp [LinterConfig.is_rule_enabled, hv, hne]
  · have : cfg.get_rule_config rule_id = [] := by
      simp [LinterConfig.get_rule_config, habs]
    simp [LinterConfig.is_rule_enabled, this, getField, truthy, pyEqStr]
  · simp [LinterConfig.is_rule_enabled, habs, truthy, pyEqStr]

/-- Concrete witness for C7: with `marketplace-json-valid` configured `auto`
in a marketplace-typed context the rule is enabled, and an absent rule is
enabled by default. -/
theorem c7_witness :
    LinterConfig.is_rule_enabled
      ⟨[("marketplace-json-valid", [("enabled", .jstr "auto"), ("severity", .jstr "error")])], [], [], false⟩
      "marketplace-json-valid"
      ⟨["repo"], .MARKETPLACE, none, [], [["repo"]]⟩ = true ∧
    LinterConfig.is_rule_enabled ⟨[], [], [], false⟩ "plugin-readme"
      ⟨["repo"], .UNKNOWN, none, [], []⟩ = true := by
  constructor
  · have h := (c7_is_rule_enabled
      ⟨[("marketplace-json-valid", [("enabled", .jstr "auto"), ("severity", .jstr "error")])], [], [], false⟩
      "marketplace-json-valid"
      ⟨["repo"], .MARKETPLACE, none, [], [["repo"]]⟩).1 (.jstr "auto") (by rfl)
    rw [h.1 rfl]
  · exact (c7_is_rule_enabled ⟨[], [], [], false⟩ "plugin-readme"
      ⟨["repo"], .UNKNOWN, none, [], []⟩).2.1 rfl

/-! ## C9: severity validation in `Rule.__init__` -/

theorem ofJVal_value (d : Severity) : Severity.ofJVal (.jstr d.value) = some d := by
  cases d <;> rfl

/-- C9: constructing a rule with a configured severity string outside
`error`/`warning`/`info` raises `ValueError` rather than falling back to the
coded default; with no configured severity the rule's severity is its coded
default. -/
theorem c9_severity_validation (config : List (String × JVal)) (d : Severity) :
    (∀ s : String, getField config "severity" = some (.jstr s) →
        s ≠ "error" → s ≠ "warning" → s ≠ "info" →
        ruleInit config d = .error "ValueError") ∧
    (getField config "severity" = none →
        ∃ st, ruleInit config d = .ok st ∧ st.severity = d) := by
  constructor
  · intro s hs h1 h2 h3
    simp [ruleInit, hs, Severity.ofJVal, h1, h2, h3]
  · intro habs
    refine ⟨⟨(getField config "enabled").getD (.jbool true), d⟩, ?_, rfl⟩
    simp [ruleInit, habs, ofJVal_value]

/-- Concrete witness for C9: severity `"fatal"` raises `ValueError`; an
absent severity yields the coded default `WARNING`. -/
theorem c9_witness :
    ruleInit [("enabled", .jbool false), ("severity", .jstr "fatal")] .ERROR =
      .error "ValueError" ∧
    ∃ st, ruleInit [("enabled", .jbool true)] .WARNING = .ok st ∧
      st.severity = .WARNING := by
  constructor
  · exact (c9_severity_validation
      [("enabled", .jbool false), ("severity", .jstr "fatal")] .ERROR).1
      "fatal" rfl (by decide) (by decide) (by decide)
  · exact (c9_severity_validation [("enabled", .jbool true)] .WARNING).2 rfl

/-! ## C10: builtin configuration never reaches `Rule.__init__` -/

theorem exceptBindError (e : PyErr) (f : α → Except PyErr β) :
    (Except.error e >>= f) = Except.error e := rfl

theorem exceptBindOk (a : α) (f : α → Except PyErr β) :
    (Except.ok a >>= f) = f a := rfl

/-- C10: the claim is refuted by the code. Because `rule_class.rule_id` is a
class-level access to a `@property` (a property descriptor object, never a
key of the string-keyed rules dict), every builtin rule is instantiated with
an empty configuration: an invalid configured severity string (`"bogus"`,
which `Severity` rejects) does *not* abort `_load_builtin_rules` — whether
the rule is configured disabled (loading succeeds with no rule) or enabled
(loading succeeds and the rule carries its coded default severity `WARNING`,
the configured string silently ignored). -/
theorem c10_property_bug :
    load_builtin_rules
      [⟨"plugin-naming", .WARNING, fun _ => .ok []⟩]
      ⟨[("plugin-naming", [("enabled", .jbool false), ("severity", .jstr "bogus")])], [], [], false⟩
      ⟨["repo"], .SINGLE_PLUGIN, none, [], [["repo"]]⟩ = .ok [] ∧
    load_builtin_rules
      [⟨"plugin-naming", .WARNING, fun _ => .ok []⟩]
      ⟨[("plugin-naming", [("enabled", .jbool true), ("severity", .jstr "bogus")])], [], [], false⟩
      ⟨["repo"], .SINGLE_PLUGIN, none, [], [["repo"]]⟩ =
      .ok [⟨"plugin-naming", ⟨.jbool true, .WARNING⟩, fun _ => .ok []⟩] ∧
    Severity.ofJVal (.jstr "bogus") = none := by
  refine ⟨rfl, rfl, rfl⟩

/-! ## C2: repository classification priority -/

/-- The classification rule exactly as the claim words it: the `.claude-plugin`
marker and the `plugins/` container must be *directories*. -/
def claimC2_kind (fs : FS) (root : Path) : RepositoryType :=
  if fsExists fs (root ++ [strd, "marketplace.json"]) then .MARKETPLACE
  else if fsIsDir fs (root ++ [strd]) then .SINGLE_PLUGIN
  else if fsIsDir fs (root ++ ["plugins"]) then .MARKETPLACE
  else .UNKNOWN

/-- The classification rule as amended: the code tests bare existence of the
`.claude-plugin` and `plugins` paths, regardless of whether they are
directories. -/
def amendedC2_kind (fs : FS) (root : Path) : RepositoryType :=
  if fsExists fs (root ++ [strd, "marketplace.json"]) then .MARKETPLACE
  else if fsExists fs (root ++ [strd]) then .SINGLE_PLUGIN
  else if fsExists fs (root ++ ["plugins"]) then .MARKETPLACE
  else .UNKNOWN

/-- C2 counterexample: with a regular *file* named `.claude-plugin` at the
root (and no other marker), the code classifies `SINGLE_PLUGIN` while the
claim's priority rule (which requires a `.claude-plugin` *directory*)
classifies `UNKNOWN`; likewise a regular file named `plugins` makes the code
classify `MARKETPLACE` where the claim classifies `UNKNOWN`. -/
theorem c2_counterexample :
    detect_type [([strd], .file .invalid)] [] = .SINGLE_PLUGIN ∧
    claimC2_kind [([strd], .file .invalid)] [] = .UNKNOWN ∧
    detect_type [(["plugins"], .file .invalid)] [] = .MARKETPLACE ∧
    claimC2_kind [(["plugins"], .file .invalid)] [] = .UNKNOWN ∧
    RepositoryType.SINGLE_PLUGIN ≠ .UNKNOWN ∧
    RepositoryType.MARKETPLACE ≠ .UNKNOWN := by
  refine ⟨rfl, rfl, rfl, rfl, by decide, by decide⟩

/-- C2 amended: classification follows the claimed fixed priority, except the
two non-registry markers are tested for bare path existence (file or
directory), not for being directories. -/
theorem c2_classification_amended (fs : FS) (root : Path) :
    detect_type fs root = amendedC2_kind fs root := rfl

/-! ## C3: escaping and remote registry sources are skipped without error -/

theorem truthy_jstr_of_ne (s : String) (h : s ≠ "") : truthy (.jstr s) = true := by
  simp [truthy, h]

theorem resolve_source_escaping (fs : FS) (root : Path) (s : String)
    (entry : List (String × JVal))
    (hesc : ¬ root.isPrefixOf (resolveStr root s)) :
    resolve_plugin_source fs root (.jstr s) entry =
      (none, [.warnEscapes ((getField entry "name").getD (.jstr "unknown")) s]) := by
  simp only [resolve_plugin_source]
  rw [if_pos hesc]

/-- C3: a marketplace registry entry whose string `source` resolves outside
the repository root, or whose `source` is a structured remote descriptor
(a non-empty dict), contributes zero PluginRefs and raises no exception: the
step returns normally with `plugins`, `discovered_paths` and
`plugin_metadata` unchanged, logging the escape as a warning and the remote
source at informational level with the entry's name. -/
theorem c3_skipped_sources (fs : FS) (root : Path) (st : DiscState)
    (entry : List (String × JVal)) :
    (∀ s : String, getField entry "source" = some (.jstr s) → s ≠ "" →
        ¬ root.isPrefixOf (resolveStr root s) →
        marketplace_entry_step fs root st (.jobj entry) =
          .ok { st with logs := st.logs ++
            [.warnEscapes ((getField entry "name").getD (.jstr "unknown")) s] }) ∧
    (∀ sf, getField entry "source" = some (.jobj sf) → sf ≠ [] →
        ∃ stype sinfo, marketplace_entry_step fs root st (.jobj entry) =
          .ok { st with logs := st.logs ++
            [.infoRemote ((getField entry "name").getD (.jstr "unknown")) stype sinfo] }) := by
  constructor
  · intro s hs hne hesc
    simp only [marketplace_entry_step, hs, Option.getD_some]
    rw [if_neg (by simp [truthy, hne])]
    rw [resolve_source_escaping fs root s entry hesc]
  · intro sf hs hne
    refine ⟨(getField sf "source").getD (.jstr "unknown"),
      (match getField sf "repo" with
       | some rv => if truthy rv then rv else (getField sf "url").getD (.jstr "unknown")
       | none => (getField sf "url").getD (.jstr "unknown")), ?_⟩
    simp only [marketplace_entry_step, hs, Option.getD_some]
    rw [if_neg (by simp [truthy, hne])]
    simp only [resolve_plugin_source]

/-- Concrete witness for C3: an entry with source `../outside` of root `/a`
is skipped with a warning, and an entry with a GitHub remote source is
skipped with an informational log naming the entry. -/
theorem c3_witness :
    marketplace_entry_step [] ["a"] DiscState.init
      (.jobj [("name", .jstr "esc"), ("source", .jstr "../outside")]) =
      .ok { DiscState.init with
        logs := [.warnEscapes (.jstr "esc") "../outside"] } ∧
    ∃ stype sinfo, marketplace_entry_step [] ["a"] DiscState.init
      (.jobj [("name", .jstr "rem"), ("source", .jobj [("source", .jstr "github"), ("repo", .jstr "o/r")])]) =
      .ok { DiscState.init with logs := [.infoRemote (.jstr "rem") stype sinfo] } := by
  constructor
  · have h := (c3_skipped_sources [] ["a"] DiscState.init
      [("name", .jstr "esc"), ("source", .jstr "../outside")]).1
      "../outside" rfl (by decide) (by decide)
    simpa [getField] using h
  · have h := (c3_skipped_sources [] ["a"] DiscState.init
      [("name", .jstr "rem"), ("source", .jobj [("source", .jstr "github"), ("repo", .jstr "o/r")])]).2
      [("source", .jstr "github"), ("repo", .jstr "o/r")] rfl (List.cons_ne_nil _ _)
    obtain ⟨stype, sinfo, h⟩ := h
    exact ⟨stype, sinfo, by simpa [getField] using h⟩

/-! ## C8: parse/read failures degrade silently -/

theorem discover_marketplace_none (fs : FS) (root : Path) (st : DiscState) :
    discover_from_marketplace fs root none st = .ok st := rfl

theorem discover_plugins_ok_of_sane (fs : FS) (root : Path)
    (dt : RepositoryType)
    (hplug : fsExists fs (root ++ ["plugins"]) = true →
      fsIsDir fs (root ++ ["plugins"]) = true) :
    ∃ st, discover_plugins fs root dt none = .ok st := by
  cases dt with
  | SINGLE_PLUGIN => exact ⟨_, rfl⟩
  | UNKNOWN => exact ⟨_, rfl⟩
  | MARKETPLACE =>
      simp only [discover_plugins]
      cases he : fsExists fs (root ++ ["plugins"]) with
      | false =>
          refine ⟨DiscState.init, ?_⟩
          simp only [discover_from_plugins_dir, he]
          rfl
      | true =>
          refine ⟨(children fs (root ++ ["plugins"])).foldl
            (plugins_dir_step fs (root ++ ["plugins"])) DiscState.init, ?_⟩
          simp [discover_from_plugins_dir, he, hplug he, discover_from_marketplace]
          rw [exceptBindOk]

/-- C8: a `marketplace.json` that fails to read or parse yields
`marketplace_data = None` and repository construction still succeeds (given
the orthogonal sanity condition that a `plugins` path, if present, is a
directory — `iterdir` on a non-directory fails independently of the
registry); and a plugin whose manifest fails to read or parse yields empty
metadata (`None`) from `get_plugin_metadata` when it has no retained
fallback metadata. Neither failure raises. -/
theorem c8_degraded_failures (fs : FS) (root : Path) (ctx : RepositoryContext)
    (p : Path) :
    ((readJson fs (normalize root ++ [strd, "marketplace.json"]) = none) →
      (fsExists fs (normalize root ++ ["plugins"]) = true →
        fsIsDir fs (normalize root ++ ["plugins"]) = true) →
      ∃ c logs, RepositoryContext.construct fs root = .ok (c, logs) ∧
        c.marketplace_data = none) ∧
    ((readJson fs (p ++ [strd, "plugin.json"]) = none) →
      (lookupMeta ctx.plugin_metadata (normalize p) = none) →
      ctx.get_plugin_metadata fs p = .ok none) := by
  constructor
  · intro hreg hplug
    have hmd : (if has_marketplace fs (normalize root) then
        load_marketplace fs (normalize root) else none) = none := by
      cases h : has_marketplace fs (normalize root) with
      | false => simp
      | true => simp [load_marketplace, hreg]
    obtain ⟨st, hst⟩ :=
      discover_plugins_ok_of_sane fs (normalize root)
        (detect_type fs (normalize root)) hplug
    refine ⟨⟨normalize root, detect_type fs (normalize root), none,
      st.metadata, st.plugins⟩, st.logs, ?_, rfl⟩
    simp only [RepositoryContext.construct, hmd, hst]
    rfl
  · intro hman hnof
    have hmd0 : (if fsExists fs (p ++ [strd, "plugin.json"]) then
        match readJson fs (p ++ [strd, "plugin.json"]) with
        | some data => data
        | none => JVal.jobj []
      else JVal.jobj []) = JVal.jobj [] := by
      cases h : fsExists fs (p ++ [strd, "plugin.json"]) with
      | false => simp
      | true => simp [hman]
    simp only [RepositoryContext.get_plugin_metadata, hmd0, hnof]
    rfl

/-- Concrete witness for C8: a repository whose registry file is unreadable
constructs successfully with no marketplace data, and a plugin path with an
unreadable manifest and no fallback yields `None` metadata. -/
theorem c8_witness :
    (∃ c logs, RepositoryContext.construct
      [([strd], .dir), ([strd, "marketplace.json"], .file .invalid)] [] =
        .ok (c, logs) ∧ c.marketplace_data = none) ∧
    RepositoryContext.get_plugin_metadata ⟨[], .MARKETPLACE, none, [], [["p"]]⟩
      [(["p"], .dir), (["p", strd], .dir), (["p", strd, "plugin.json"], .file .invalid)]
      ["p"] = .ok none := by
  constructor
  · obtain ⟨c, logs, h1, h2⟩ :=
      (c8_degraded_failures
        [([strd], .dir), ([strd, "marketplace.json"], .file .invalid)] []
        ⟨[], .MARKETPLACE, none, [], []⟩ ["p"]).1 rfl (by intro h; cases h)
    exact ⟨c, logs, h1, h2⟩
  · exact (c8_degraded_failures
      [(["p"], .dir), (["p", strd], .dir), (["p", strd, "plugin.json"], .file .invalid)]
      [] ⟨[], .MARKETPLACE, none, [], [["p"]]⟩ ["p"]).2 rfl rfl

/-! ## C4: uniqueness of resolved paths and first-discovery-wins -/

/-- The discovery invariant: the `discovered_paths` set is exactly the
resolved paths of the discovered plugins, without duplicates. -/
def DiscInv (st : DiscState) : Prop :=
  st.discovered = st.plugins.map normalize ∧ st.discovered.Nodup

/-- `st'` extends `st` by plugins whose resolved paths were not yet
discovered in `st`. -/
def ExtendsAvoiding (st st' : DiscState) : Prop :=
  ∃ ps, st'.plugins = st.plugins ++ ps ∧
    st'.discovered = st.discovered ++ ps.map normalize ∧
    ∀ q ∈ ps, normalize q ∉ st.discovered

theorem extendsAvoiding_refl (st : DiscState) : ExtendsAvoiding st st :=
  ⟨[], by simp, by simp, by simp⟩

theorem extendsAvoiding_trans (st st' st'' : DiscState)
    (h1 : ExtendsAvoiding st st') (h2 : ExtendsAvoiding st' st'') :
    ExtendsAvoiding st st'' := by
  obtain ⟨ps1, hp1, hd1, ha1⟩ := h1
  obtain ⟨ps2, hp2, hd2, ha2⟩ := h2
  refine ⟨ps1 ++ ps2, by simp [hp2, hp1], by simp [hd2, hd1, hp1], ?_⟩
  intro q hq
  rcases List.mem_append.mp hq with hq' | hq'
  · exact ha1 q hq'
  · intro hmem
    exact ha2 q hq' (hd1 ▸ List.mem_append.mpr (Or.inl hmem))

theorem plugins_dir_step_cases (fs : FS) (pd : Path) (st : DiscState)
    (name : String) :
    plugins_dir_step fs pd st name = st ∨
    ∃ p, plugins_dir_step fs pd st name =
      { st with plugins := st.plugins ++ [p],
                discovered := st.discovered ++ [normalize p] } ∧
      normalize p ∉ st.discovered := by
  simp only [plugins_dir_step]
  split
  · exact Or.inl rfl
  · split
    · exact Or.inl rfl
    · split
      · exact Or.inl rfl
      · rename_i hnot
        exact Or.inr ⟨pd ++ [name], rfl, hnot⟩

theorem disc_inv_plugins_dir_step (fs : FS) (pd : Path) (st : DiscState)
    (name : String) (h : DiscInv st) :
    DiscInv (plugins_dir_step fs pd st name) := by
  rcases plugins_dir_step_cases fs pd st name with heq | ⟨p, heq, hnot⟩
  · rw [heq]; exact h
  · rw [heq]
    obtain ⟨h1, h2⟩ := h
    refine ⟨by simp [h1], ?_⟩
    refine List.nodup_append.mpr ⟨h2, List.nodup_singleton _, ?_⟩
    intro a ha hb
    rw [List.mem_singleton] at hb
    subst hb
    exact hnot ha

theorem extends_plugins_dir_step (fs : FS) (pd : Path) (st : DiscState)
    (name : String) : ExtendsAvoiding st (plugins_dir_step fs pd st name) := by
  rcases plugins_dir_step_cases fs pd st name with heq | ⟨p, heq, hnot⟩
  · rw [heq]; exact extendsAvoiding_refl st
  · rw [heq]
    exact ⟨[p], rfl, rfl, by simpa using hnot⟩

theorem disc_inv_plugins_dir_foldl (fs : FS) (pd : Path) (names : List String)
    (st : DiscState) (h : DiscInv st) :
    DiscInv (names.foldl (plugins_dir_step fs pd) st) := by
  induction names generalizing st with
  | nil => exact h
  | cons n rest ih =>
      exact ih (plugins_dir_step fs pd st n) (disc_inv_plugins_dir_step fs pd st n h)

theorem exceptOkInj (a b : α) (h : (Except.ok a : Except PyErr α) = .ok b) :
    a = b := by
  injection h

theorem marketplace_entry_step_cases (fs : FS) (root : Path) (st : DiscState)
    (pe : JVal) (st' : DiscState)
    (h : marketplace_entry_step fs root st pe = .ok st') :
    (st'.plugins = st.plugins ∧ st'.discovered = st.discovered) ∨
    (∃ p, st'.plugins = st.plugins ++ [p] ∧
          st'.discovered = st.discovered ++ [normalize p] ∧
          normalize p ∉ st.discovered) := by
  cases pe with
  | jobj entry =>
      simp only [marketplace_entry_step] at h
      split at h
      · obtain rfl := exceptOkInj _ _ h
        exact Or.inl ⟨rfl, rfl⟩
      · split at h
        · obtain rfl := exceptOkInj _ _ h
          exact Or.inl ⟨rfl, rfl⟩
        · rename_i pp hsome
          split at h
          · obtain rfl := exceptOkInj _ _ h
            exact Or.inl ⟨rfl, rfl⟩
          · split at h
            · obtain rfl := exceptOkInj _ _ h
              exact Or.inl ⟨rfl, rfl⟩
            · rename_i hdup hvalid
              split at h
              · obtain rfl := exceptOkInj _ _ h
                exact Or.inr ⟨pp, rfl, rfl, hdup⟩
              · obtain rfl := exceptOkInj _ _ h
                exact Or.inr ⟨pp, rfl, rfl, hdup⟩
  | jnull => exact Except.noConfusion h
  | jbool b => exact Except.noConfusion h
  | jnum n => exact Except.noConfusion h
  | jstr s2 => exact Except.noConfusion h
  | jarr xs => exact Except.noConfusion h

theorem disc_inv_marketplace_entry_step (fs : FS) (root : Path)
    (st : DiscState) (pe : JVal) (st' : DiscState)
    (hok : marketplace_entry_step fs root st pe = .ok st') (h : DiscInv st) :
    DiscInv st' := by
  rcases marketplace_entry_step_cases fs root st pe st' hok with ⟨hp, hd⟩ | ⟨p, hp, hd, hnot⟩
  · exact ⟨hd.trans (h.1.trans (by rw [hp])), hd ▸ h.2⟩
  · obtain ⟨h1, h2⟩ := h
    refine ⟨by rw [hd, hp, h1]; simp, ?_⟩
    rw [hd]
    refine List.nodup_append.mpr ⟨h2, List.nodup_singleton _, ?_⟩
    intro a ha hb
    rw [List.mem_singleton] at hb
    subst hb
    exact hnot ha

theorem extends_marketplace_entry_step (fs : FS) (root : Path)
    (st : DiscState) (pe : JVal) (st' : DiscState)
    (hok : marketplace_entry_step fs root st pe = .ok st') :
    ExtendsAvoiding st st' := by
  rcases marketplace_entry_step_cases fs root st pe st' hok with ⟨hp, hd⟩ | ⟨p, hp, hd, hnot⟩
  · exact ⟨[], by simp [hp], by simp [hd], by simp⟩
  · exact ⟨[p], hp, by simpa using hd, by simpa using hnot⟩

theorem marketplace_foldlM_inv_extends (fs : FS) (root : Path)
    (entries : List JVal) (st st' : DiscState)
    (hok : entries.foldlM (marketplace_entry_step fs root) st = .ok st')
    (h : DiscInv st) : DiscInv st' ∧ ExtendsAvoiding st st' := by
  induction entries generalizing st with
  | nil =>
      simp only [List.foldlM_nil] at hok
      obtain rfl := exceptOkInj _ _ hok
      exact ⟨h, extendsAvoiding_refl st⟩
  | cons pe rest ih =>
      rw [List.foldlM_cons] at hok
      cases hstep : marketplace_entry_step fs root st pe with
      | error e =>
          rw [hstep, exceptBindError] at hok
          exact Except.noConfusion hok
      | ok st1 =>
          rw [hstep, exceptBindOk] at hok
          obtain ⟨hi, he⟩ := ih st1 hok
            (disc_inv_marketplace_entry_step fs root st pe st1 hstep h)
          exact ⟨hi, extendsAvoiding_trans st st1 st'
            (extends_marketplace_entry_step fs root st pe st1 hstep) he⟩

theorem discover_marketplace_inv_extends (fs : FS) (root : Path)
    (mdata : Option JVal) (st st' : DiscState)
    (hok : discover_from_marketplace fs root mdata st = .ok st')
    (h : DiscInv st) : DiscInv st' ∧ ExtendsAvoiding st st' := by
  cases mdata with
  | none =>
      obtain rfl := exceptOkInj _ _ hok
      exact ⟨h, extendsAvoiding_refl st⟩
  | some d =>
      simp only [discover_from_marketplace] at hok
      split at hok
      · obtain rfl := exceptOkInj _ _ hok
        exact ⟨h, extendsAvoiding_refl st⟩
      · cases hlist : marketplace_plugins_list d with
        | error e =>
            rw [hlist, exceptBindError] at hok
            exact Except.noConfusion hok
        | ok entries =>
            rw [hlist, exceptBindOk] at hok
            exact marketplace_foldlM_inv_extends fs root entries st st' hok h

theorem disc_inv_init : DiscInv DiscState.init :=
  ⟨rfl, List.nodup_nil⟩

theorem disc_inv_discover_from_plugins_dir (fs : FS) (root : Path)
    (st st' : DiscState) (hok : discover_from_plugins_dir fs root st = .ok st')
    (h : DiscInv st) : DiscInv st' := by
  simp only [discover_from_plugins_dir] at hok
  split at hok
  · obtain rfl := exceptOkInj _ _ hok
    exact h
  · split at hok
    · exact Except.noConfusion hok
    · obtain rfl := exceptOkInj _ _ hok
      exact disc_inv_plugins_dir_foldl fs (root ++ ["plugins"])
        (children fs (root ++ ["plugins"])) st h

/-- C4: after `RepositoryContext.__init__`, the resolved paths of the
discovered plugins are pairwise distinct; for Marketplace repositories the
container scan of `plugins/` runs first (its discoveries form a prefix of
`Repository.plugins`) and the registry scan second, and a registry entry
resolving to an already-discovered path contributes nothing (first discovery
wins), so the registry-contributed suffix avoids every container-resolved
path. -/
theorem c4_discovery_dedup (fs : FS) (root : Path) (ctx : RepositoryContext)
    (logs : List LogEvent)
    (h : RepositoryContext.construct fs root = .ok (ctx, logs)) :
    (ctx.plugins.map normalize).Nodup ∧
    (ctx.repo_type = .MARKETPLACE →
      ∃ st1 rest, discover_from_plugins_dir fs (normalize root) DiscState.init = .ok st1 ∧
        ctx.plugins = st1.plugins ++ rest ∧
        ∀ q ∈ rest, normalize q ∉ st1.plugins.map normalize) := by
  simp only [RepositoryContext.construct] at h
  cases hd : discover_plugins fs (normalize root) (detect_type fs (normalize root))
      (if has_marketplace fs (normalize root) then
        load_marketplace fs (normalize root) else none) with
  | error e =>
      rw [hd, exceptBindError] at h
      exact Except.noConfusion h
  | ok st =>
      rw [hd, exceptBindOk] at h
      obtain hctx := exceptOkInj _ _ h
      obtain ⟨hctx1, hctx2⟩ := Prod.mk.inj hctx
      subst hctx1
      subst hctx2
      cases hdt : detect_type fs (normalize root) with
      | SINGLE_PLUGIN =>
          rw [hdt] at hd
          simp only [discover_plugins] at hd
          obtain rfl := exceptOkInj _ _ hd
          constructor
          · exact List.nodup_singleton _
          · intro hmk
            simp at hmk
      | UNKNOWN =>
          rw [hdt] at hd
          simp only [discover_plugins] at hd
          obtain rfl := exceptOkInj _ _ hd
          constructor
          · exact List.nodup_nil
          · intro hmk
            simp at hmk
      | MARKETPLACE =>
          rw [hdt] at hd
          simp only [discover_plugins] at hd
          cases hc : discover_from_plugins_dir fs (normalize root) DiscState.init with
          | error e =>
              rw [hc, exceptBindError] at hd
              exact Except.noConfusion hd
          | ok st1 =>
              rw [hc, exceptBindOk] at hd
              have hinv1 : DiscInv st1 :=
                disc_inv_discover_from_plugins_dir fs (normalize root)
                  DiscState.init st1 hc disc_inv_init
              obtain ⟨hinv, hext⟩ := discover_marketplace_inv_extends fs (normalize root)
                (if has_marketplace fs (normalize root) then
                  load_marketplace fs (normalize root) else none) st1 st hd hinv1
              obtain ⟨ps, hp, hdisc, havoid⟩ := hext
              constructor
              · have h2 := hinv.2
                rw [hinv.1] at h2
                exact h2
              · intro _
                refine ⟨st1, ps, rfl, hp, ?_⟩
                intro q hq
                rw [← hinv1.1]
                exact havoid q hq

/-- Concrete witness for C4: a registered marketplace where `plugins/a` is
found by the container scan and also listed in the registry (the registry
duplicate is skipped), while `plugins/b` is only discovered by the registry
scan via its relaxed-validation entry. -/
theorem c4_witness :
    (([["r", "plugins", "a"], ["r", "plugins", "b"]] : List Path).map normalize).Nodup := by
  have h := (c4_discovery_dedup
    [ (["r"], .dir),
      (["r", strd], .dir),
      (["r", strd, "marketplace.json"], .file (.valid (.jobj
        [("name", .jstr "mp"),
         ("plugins", .jarr
           [.jobj [("name", .jstr "a"), ("source", .jstr "./plugins/a")],
            .jobj [("name", .jstr "b"), ("source", .jstr "./plugins/b"),
                   ("strict", .jbool false)]])]))),
      (["r", "plugins"], .dir),
      (["r", "plugins", "a"], .dir),
      (["r", "plugins", "a", "commands"], .dir),
      (["r", "plugins", "b"], .dir) ]
    ["r"]
    ⟨["r"], .MARKETPLACE,
      some (.jobj
        [("name", .jstr "mp"),
         ("plugins", .jarr
           [.jobj [("name", .jstr "a"), ("source", .jstr "./plugins/a")],
            .jobj [("name", .jstr "b"), ("source", .jstr "./plugins/b"),
                   ("strict", .jbool false)]])]),
      [(["r", "plugins", "b"],
        [("name", .jstr "b"), ("source", .jstr "./plugins/b"), ("strict", .jbool false)])],
      [["r", "plugins", "a"], ["r", "plugins", "b"]]⟩
    [] rfl).1
  exact h

/-! ## C6: the `get_plugin_name` precedence chain -/

/-- The name-resolution rule exactly as the claim words it: manifest name
when the manifest exists and parses with a non-empty (truthy) name,
otherwise the retained fallback entry's name, otherwise the directory's base
name — always returning a value, never raising. -/
def claimC6_name (fs : FS) (ctx : RepositoryContext) (p : Path) : JVal :=
  let plugin_json := p ++ [strd, "plugin.json"]
  let manifestName : Option JVal :=
    if fsExists fs plugin_json then
      match readJson fs plugin_json with
      | some (.jobj mf) =>
          match getField mf "name" with
          | some v => if truthy v then some v else none
          | none => none
      | _ => none
    else none
  match manifestName with
  | some v => v
  | none =>
      match lookupMeta ctx.plugin_metadata (normalize p) with
      | some entry => (getField entry "name").getD (.jstr (baseName p))
      | none => .jstr (baseName p)

/-- The name-resolution rule as amended: identical to the claim's precedence
chain except that a manifest which parses to a non-object JSON value makes
`get_plugin_name` raise `AttributeError` (the uncaught `data.get` call)
instead of falling through to the fallback metadata. -/
def amendedC6_name (fs : FS) (ctx : RepositoryContext) (p : Path) :
    Except PyErr JVal :=
  let plugin_json := p ++ [strd, "plugin.json"]
  let fallback : JVal :=
    match lookupMeta ctx.plugin_metadata (normalize p) with
    | some entry => (getField entry "name").getD (.jstr (baseName p))
    | none => .jstr (baseName p)
  if fsExists fs plugin_json then
    match readJson fs plugin_json with
    | some (.jobj mf) =>
        match getField mf "name" with
        | some v => if truthy v then .ok v else .ok fallback
        | none => .ok fallback
    | some _ => .error "AttributeError"
    | none => .ok fallback
  else .ok fallback

/-- C6 counterexample: a manifest file containing the JSON array `[]` exists
and parses, but without a name; the claim prescribes the retained fallback
entry's name `"reg"`, while `get_plugin_name` raises `AttributeError` at the
uncaught `data.get` call. -/
theorem c6_counterexample :
    RepositoryContext.get_plugin_name
      ⟨[], .MARKETPLACE, none,
        [(["p"], [("name", .jstr "reg"), ("source", .jstr "./p"), ("strict", .jbool false)])],
        [["p"]]⟩
      [(["p"], .dir), (["p", strd], .dir), (["p", strd, "plugin.json"], .file (.valid (.jarr [])))]
      ["p"] = .error "AttributeError" ∧
    claimC6_name
      [(["p"], .dir), (["p", strd], .dir), (["p", strd, "plugin.json"], .file (.valid (.jarr [])))]
      ⟨[], .MARKETPLACE, none,
        [(["p"], [("name", .jstr "reg"), ("source", .jstr "./p"), ("strict", .jbool false)])],
        [["p"]]⟩
      ["p"] = .jstr "reg" ∧
    RepositoryContext.get_plugin_name
      ⟨[], .MARKETPLACE, none,
        [(["p"], [("name", .jstr "reg"), ("source", .jstr "./p"), ("strict", .jbool false)])],
        [["p"]]⟩
      [(["p"], .dir), (["p", strd], .dir), (["p", strd, "plugin.json"], .file (.valid (.jarr [])))]
      ["p"] ≠ .ok (claimC6_name
        [(["p"], .dir), (["p", strd], .dir), (["p", strd, "plugin.json"], .file (.valid (.jarr [])))]
        ⟨[], .MARKETPLACE, none,
          [(["p"], [("name", .jstr "reg"), ("source", .jstr "./p"), ("strict", .jbool false)])],
          [["p"]]⟩
        ["p"]) := by
  refine ⟨rfl, rfl, ?_⟩
  intro h
  exact Except.noConfusion h

/-- C6 amended: `get_plugin_name` follows the claimed three-step precedence
(manifest name when the manifest exists and parses to an object with a
truthy name; else the retained fallback entry's name; else the directory's
base name), except that a manifest parsing to a non-object JSON value makes
it raise `AttributeError` instead of falling back. -/
theorem c6_name_amended (fs : FS) (ctx : RepositoryContext) (p : Path) :
    ctx.get_plugin_name fs p = amendedC6_name fs ctx p := by
  simp only [RepositoryContext.get_plugin_name, amendedC6_name]
  cases hex : fsExists fs (p ++ [strd, "plugin.json"]) with
  | false => cases lookupMeta ctx.plugin_metadata (normalize p) <;> rfl
  | true =>
      cases hrj : readJson fs (p ++ [strd, "plugin.json"]) with
      | none => cases lookupMeta ctx.plugin_metadata (normalize p) <;> rfl
      | some data =>
          cases data with
          | jobj mf =>
              cases hname : getField mf "name" with
              | none =>
                  simp only [pyGet, hname, truthy, exceptBindOk]
                  cases lookupMeta ctx.plugin_metadata (normalize p) <;> rfl
              | some v =>
                  cases hv : truthy v with
                  | true => simp [pyGet, hname, hv, exceptBindOk]
                  | false =>
                      simp only [pyGet, hname, Option.getD_some, exceptBindOk]
                      rw [hv]
                      cases lookupMeta ctx.plugin_metadata (normalize p) <;> rfl
          | jnull => rfl
          | jbool b => rfl
          | jnum n => rfl
          | jstr s2 => rfl
          | jarr xs => rfl

/-! ## C1: the fallback merge in `get_plugin_metadata` -/

/-- The pure field-level effect of the fallback-merge loop when the manifest
parsed to a JSON object. -/
def mergeFieldsList (mf entry : List (String × JVal)) : List (String × JVal) :=
  entry.foldl
    (fun fields kv =>
      if kv.1 = "source" ∨ kv.1 = "strict" then fields
      else setField fields kv.1 kv.2) mf

theorem getField_setField_self (fields : List (String × JVal)) (k : String)
    (v : JVal) : getField (setField fields k v) k = some v := by
  induction fields with
  | nil => simp [setField, getField]
  | cons kv rest ih =>
      by_cases h : kv.1 = k
      · simp [setField, getField, h]
      · simp [setField, getField, h, ih]

theorem getField_setField_ne (fields : List (String × JVal)) (k' k : String)
    (v : JVal) (h : k' ≠ k) :
    getField (setField fields k' v) k = getField fields k := by
  induction fields with
  | nil => simp [setField, getField, h]
  | cons kv rest ih =>
      by_cases h2 : kv.1 = k'
      · simp [setField, getField, h2, h]
      · by_cases h3 : kv.1 = k
        · simp [setField, getField, h2, h3, Ne.symm h]
        · simp [setField, getField, h2, h3, ih]

theorem mergeMarketplaceFields_jobj (mf entry : List (String × JVal)) :
    mergeMarketplaceFields (.jobj mf) entry = .ok (.jobj (mergeFieldsList mf entry)) := by
  induction entry generalizing mf with
  | nil => rfl
  | cons kv rest ih =>
      by_cases h : kv.1 = "source" ∨ kv.1 = "strict"
      · simpa [mergeMarketplaceFields, mergeFieldsList, h, List.foldlM_cons]
          using ih mf
      · simpa [mergeMarketplaceFields, mergeFieldsList, h, List.foldlM_cons, pySetItem]
          using ih (setField mf kv.1 kv.2)

theorem mergeFieldsList_cons (mf : List (String × JVal)) (kv : String × JVal)
    (rest : List (String × JVal)) :
    mergeFieldsList mf (kv :: rest) =
      if kv.1 = "source" ∨ kv.1 = "strict" then mergeFieldsList mf rest
      else mergeFieldsList (setField mf kv.1 kv.2) rest := by
  by_cases h : kv.1 = "source" ∨ kv.1 = "strict" <;>
    simp [mergeFieldsList, List.foldl_cons, h]

theorem mergeFieldsList_getField_skip (mf entry : List (String × JVal))
    (k : String) (hk : ∀ kv ∈ entry, kv.1 ≠ "source" ∧ kv.1 ≠ "strict" → kv.1 ≠ k) :
    getField (mergeFieldsList mf entry) k = getField mf k := by
  induction entry generalizing mf with
  | nil => rfl
  | cons kv rest ih =>
      rw [mergeFieldsList_cons]
      by_cases h : kv.1 = "source" ∨ kv.1 = "strict"
      · rw [if_pos h]
        exact ih mf (fun kv2 h2 => hk kv2 (List.mem_cons_of_mem kv h2))
      · rw [if_neg h]
        rw [ih (setField mf kv.1 kv.2)
          (fun kv2 h2 => hk kv2 (List.mem_cons_of_mem kv h2))]
        exact getField_setField_ne mf kv.1 k kv.2
          (hk kv (List.mem_cons_self kv rest) (not_or.mp h))

theorem mergeFieldsList_getField_mem (mf entry : List (String × JVal))
    (k : String) (v : JVal) (hnodup : (entry.map Prod.fst).Nodup)
    (hmem : (k, v) ∈ entry) (hk : ¬(k = "source" ∨ k = "strict")) :
    getField (mergeFieldsList mf entry) k = some v := by
  induction entry generalizing mf with
  | nil => cases hmem
  | cons kv rest ih =>
      have hcons : (kv.1 :: rest.map Prod.fst).Nodup := by
        simpa using hnodup
      have hnodup' : (rest.map Prod.fst).Nodup := (List.nodup_cons.mp hcons).2
      rw [mergeFieldsList_cons]
      rcases List.mem_cons.mp hmem with heq | hmem'
      · have hk1 : kv.1 = k := by rw [← heq]
        have hv : kv.2 = v := by rw [← heq]
        have habs : ∀ kv2 ∈ rest, kv2.1 ≠ "source" ∧ kv2.1 ≠ "strict" → kv2.1 ≠ k := by
          intro kv2 h2 _
          have hnotin := (List.nodup_cons.mp hcons).1
          intro hfst
          exact hnotin (hk1 ▸ hfst ▸ List.mem_map_of_mem Prod.fst h2)
        rw [if_neg (by rw [hk1]; exact hk)]
        rw [mergeFieldsList_getField_skip (setField mf kv.1 kv.2) rest k habs]
        rw [hk1, hv]
        exact getField_setField_self mf k v
      · by_cases h : kv.1 = "source" ∨ kv.1 = "strict"
        · rw [if_pos h]
          exact ih mf hnodup' hmem'
        · rw [if_neg h]
          exact ih (setField mf kv.1 kv.2) hnodup' hmem'

theorem fsExists_of_readJson (fs : FS) (p : Path) (v : JVal)
    (h : readJson fs p = some v) : fsExists fs p = true := by
  unfold readJson at h
  unfold fsExists
  cases hl : fsLookup fs p with
  | none => rw [hl] at h; cases h
  | some node => simp

/-- C1 counterexample: a plugin path with both a parsed manifest
(`{"name": "man", "version": "1.0.0"}`) and retained fallback metadata
(`{"name": "reg", "source": "./p", "strict": false}`) yields a merged
dictionary whose `name` is the *registry* value `"reg"`, not the manifest
value `"man"` — the registry fields overwrite the manifest fields, contrary
to the claimed manifest precedence. -/
theorem c1_counterexample :
    RepositoryContext.get_plugin_metadata
      ⟨["r"], .MARKETPLACE, some (.jobj []),
        [(["r", "p"], [("name", .jstr "reg"), ("source", .jstr "./p"), ("strict", .jbool false)])],
        [["r", "p"]]⟩
      [(["r", "p", strd, "plugin.json"],
        .file (.valid (.jobj [("name", .jstr "man"), ("version", .jstr "1.0.0")])))]
      ["r", "p"] =
      .ok (some (.jobj [("name", .jstr "reg"), ("version", .jstr "1.0.0")])) ∧
    readJson
      [(["r", "p", strd, "plugin.json"],
        .file (.valid (.jobj [("name", .jstr "man"), ("version", .jstr "1.0.0")])))]
      (["r", "p"] ++ [strd, "plugin.json"]) =
      some (.jobj [("name", .jstr "man"), ("version", .jstr "1.0.0")]) ∧
    getField [("name", .jstr "reg"), ("version", .jstr "1.0.0")] "name" =
      some (.jstr "reg") ∧
    getField [("name", .jstr "man"), ("version", .jstr "1.0.0")] "name" =
      some (.jstr "man") ∧
    (JVal.jstr "reg") ≠ .jstr "man" := by
  refine ⟨rfl, rfl, rfl, rfl, ?_⟩
  intro h
  injection h with h2
  exact absurd h2 (by decide)

/-- C1 amended: for a plugin path whose manifest parses to a JSON object and
which has retained marketplace fallback metadata (a dict, so with distinct
keys), `get_plugin_metadata` returns the merge in which every fallback-entry
field other than the registry-only `source` and `strict` takes the *registry*
value (registry fields overwrite manifest fields), fields not named by the
fallback entry keep their manifest values, and the registry-only fields
`source`/`strict` never appear from the registry side. -/
theorem c1_metadata_merge_amended (fs : FS) (ctx : RepositoryContext) (p : Path)
    (mf entry : List (String × JVal)) (k : String) (v : JVal)
    (hman : readJson fs (p ++ [strd, "plugin.json"]) = some (.jobj mf))
    (hmeta : lookupMeta ctx.plugin_metadata (normalize p) = some entry)
    (hnodup : (entry.map Prod.fst).Nodup)
    (hmem : (k, v) ∈ entry) (hk : ¬(k = "source" ∨ k = "strict")) :
    ctx.get_plugin_metadata fs p = .ok (some (.jobj (mergeFieldsList mf entry))) ∧
    getField (mergeFieldsList mf entry) k = some v ∧
    getField (mergeFieldsList mf entry) "source" = getField mf "source" ∧
    getField (mergeFieldsList mf entry) "strict" = getField mf "strict" ∧
    (∀ k2, k2 ∉ entry.map Prod.fst →
      getField (mergeFieldsList mf entry) k2 = getField mf k2) := by
  have hgk : getField (mergeFieldsList mf entry) k = some v :=
    mergeFieldsList_getField_mem mf entry k v hnodup hmem hk
  have hne : mergeFieldsList mf entry ≠ [] := by
    intro hnil
    rw [hnil] at hgk
    cases hgk
  refine ⟨?_, hgk, ?_, ?_, ?_⟩
  · have hex := fsExists_of_readJson fs (p ++ [strd, "plugin.json"]) _ hman
    simp only [RepositoryContext.get_plugin_metadata, hex, hman, hmeta,
      mergeMarketplaceFields_jobj, if_true]
    simp only [exceptBindOk]
    simp [truthy, hne]
  · exact mergeFieldsList_getField_skip mf entry "source"
      (fun kv _ h2 hq => h2.1 hq)
  · exact mergeFieldsList_getField_skip mf entry "strict"
      (fun kv _ h2 hq => h2.2 hq)
  · intro k2 hk2
    refine mergeFieldsList_getField_skip mf entry k2 (fun kv hmem2 _ hq => ?_)
    exact hk2 (hq ▸ List.mem_map_of_mem Prod.fst hmem2)

/-- Concrete witness for C1's amended merge theorem, at the same input as the
counterexample. -/
theorem c1_witness :
    RepositoryContext.get_plugin_metadata
      ⟨["r"], .MARKETPLACE, some (.jobj []),
        [(["r", "p"], [("name", .jstr "reg"), ("source", .jstr "./p"), ("strict", .jbool false)])],
        [["r", "p"]]⟩
      [(["r", "p", strd, "plugin.json"],
        .file (.valid (.jobj [("name", .jstr "man"), ("version", .jstr "1.0.0")])))]
      ["r", "p"] =
      .ok (some (.jobj (mergeFieldsList
        [("name", .jstr "man"), ("version", .jstr "1.0.0")]
        [("name", .jstr "reg"), ("source", .jstr "./p"), ("strict", .jbool false)]))) ∧
    getField (mergeFieldsList
        [("name", .jstr "man"), ("version", .jstr "1.0.0")]
        [("name", .jstr "reg"), ("source", .jstr "./p"), ("strict", .jbool false)])
      "name" = some (.jstr "reg") := by
  have h := c1_metadata_merge_amended
    [(["r", "p", strd, "plugin.json"],
      .file (.valid (.jobj [("name", .jstr "man"), ("version", .jstr "1.0.0")])))]
    ⟨["r"], .MARKETPLACE, some (.jobj []),
      [(["r", "p"], [("name", .jstr "reg"), ("source", .jstr "./p"), ("strict", .jbool false)])],
      [["r", "p"]]⟩
    ["r", "p"]
    [("name", .jstr "man"), ("version", .jstr "1.0.0")]
    [("name", .jstr "reg"), ("source", .jstr "./p"), ("strict", .jbool false)]
    "name" (.jstr "reg") rfl rfl (by decide)
    (List.mem_cons.mpr (Or.inl rfl)) (by decide)
  exact ⟨h.1, h.2.1⟩

end Claudelint
